import Mathlib

/-!
Verification of the evidence retrieval and fusion pipeline and the entity
resolution engine of the graphrag-multiview repository.

The Python sources are shallowly embedded: pydantic models become
structures over `String`, `ℚ` and lists; each pipeline node becomes a pure
function on the retrieval state; the external gateways (embedding model,
vector store, graph store, language model, the hashlib content hash and the
APOC fuzzy matcher) are parameters of the functions that call them.
Scores are exact rationals.
-/

namespace GraphRag

/-- `strStarts sub l` : the characters `sub` are an initial segment of `l`. -/
def strStarts : List Char → List Char → Bool
  | [], _ => true
  | _ :: _, [] => false
  | a :: as, b :: bs => a == b && strStarts as bs

/-- `charsHasSub sub l` : `sub` occurs contiguously somewhere inside `l`. -/
def charsHasSub (sub : List Char) : List Char → Bool
  | [] => sub.isEmpty
  | c :: t => strStarts sub (c :: t) || charsHasSub sub t

/-- Python's substring test `sub in s` (on lowered strings where needed). -/
def strHasSub (s sub : String) : Bool :=
  charsHasSub sub.data s.data

/-- Python's `str.lower()` (character-wise, as the sources use it on ASCII
text). -/
def strLower (s : String) : String :=
  String.mk (s.data.map Char.toLower)

/-- Python's `str.strip()`: drop leading and trailing whitespace. -/
def pyStrip (s : String) : String :=
  String.mk (((s.data.dropWhile Char.isWhitespace).reverse.dropWhile
    Char.isWhitespace).reverse)

/-- Python's `s[:n]` on text: the first `n` characters. -/
def strTake (s : String) (n : ℕ) : String :=
  String.mk (s.data.take n)

/-- Insert into a descending-by-key list, after every element of
greater-or-equal key: the insertion step of a stable descending sort. -/
def insertDescBy (key : α → ℚ) (x : α) : List α → List α
  | [] => [x]
  | y :: ys => if key y ≤ key x then x :: y :: ys else y :: insertDescBy key x ys

/-- Stable descending sort by a rational key; the embedding of Python's
stable `list.sort(key=..., reverse=True)`. -/
def sortDescBy (key : α → ℚ) : List α → List α
  | [] => []
  | x :: xs => insertDescBy key x (sortDescBy key xs)

/-- Dictionary lookup `d.get(k, default)` on a metadata association list. -/
def metaGetD (m : List (String × String)) (k d : String) : String :=
  match m.lookup k with
  | some v => v
  | none => d

/-- Optional dictionary lookup `d.get(k)`. -/
def metaGet (m : List (String × String)) (k : String) : Option String :=
  m.lookup k

/-- `VectorSearchResult` from `graphrag/core/models.py`. -/
structure VectorSearchResult where
  chunk_id : String
  doc_id : String
  content : String
  score : ℚ
  metadata : List (String × String) := []
deriving Repr, DecidableEq

/-- `GraphFact` from `graphrag/core/models.py` (the raw `path` payload is
opaque to every claim and is not modelled). -/
structure GraphFact where
  fact : String
  source_nodes : List String := []
  confidence : ℚ := 1
deriving Repr, DecidableEq

/-- `Citation` from `graphrag/core/models.py`; `page` is kept as the raw
metadata string it is read from. -/
structure Citation where
  doc_id : String
  doc_title : Option String := none
  sectionName : Option String := none
  page : Option String := none
  excerpt : String
  relevance_score : ℚ := 1
deriving Repr, DecidableEq

/-- A safety-rule record as assembled in `evidence_assembler_node`
(a dict with `content`, `source` and the constant `type: "extracted"`). -/
structure SafetyRule where
  content : String
  source : String
  rtype : String := "extracted"
deriving Repr, DecidableEq

/-- `EvidencePack` from `graphrag/core/models.py`. -/
structure EvidencePack where
  passages : List VectorSearchResult := []
  graph_facts : List GraphFact := []
  safety_rules : List SafetyRule := []
  citations : List Citation := []
  conflicts : List String := []
deriving Repr, DecidableEq

/-- `SafetyEscalation` from `graphrag/core/models.py`. -/
structure SafetyEscalation where
  reason : String
  severity : String
  recommended_action : String
  contact_roles : List String := []
deriving Repr, DecidableEq

/-- An entry of `fused_evidence` built by `skip_fusion_node`
(a dict with content, weighted score, source tag and payload). -/
structure FusedItem where
  content : String
  score : ℚ
  source : String
  doc_id : Option String := none
  nodes : Option (List String) := none
deriving Repr, DecidableEq

/-- `RetrievalState` from `graphrag/core/models.py`, restricted to the
fields the verified nodes read or write (timings and debug fields are
dropped). -/
structure RetrievalState where
  query : String
  normalized_query : String := ""
  vector_candidates : List VectorSearchResult := []
  graph_facts : List GraphFact := []
  reranked_evidence : List VectorSearchResult := []
  evidence_pack : Option EvidencePack := none
  skip_vector : List VectorSearchResult := []
  skip_graph : List GraphFact := []
  skip_rerank : List VectorSearchResult := []
  fused_evidence : List FusedItem := []
  answer : String := ""
  citations : List Citation := []
  confidence : ℚ := 0
  safety_escalation : Option SafetyEscalation := none
deriving Repr, DecidableEq

/-- Routing decisions of `evidence_sufficiency_check`
(`Literal["sufficient", "insufficient", "safety_critical"]`). -/
inductive SufficiencyRoute where
  | sufficient
  | insufficient
  | safety_critical
deriving Repr, DecidableEq

/-- Routing decisions of `guardrail_check`
(`Literal["pass", "escalate", "retry"]`). -/
inductive GuardRoute where
  | pass
  | escalate
  | retry
deriving Repr, DecidableEq

/-- The bypass-intent keyword list of `evidence_sufficiency_check`. -/
def bypassKeywords : List String :=
  ["bypass", "override", "shortcut", "skip", "disable"]

/-- `evidence_sufficiency_check` from
`archive/langgraph_implementation/graph.py`. -/
def evidence_sufficiency_check (state : RetrievalState) : SufficiencyRoute :=
  match state.evidence_pack with
  | none => .insufficient
  | some evidence =>
    if !evidence.safety_rules.isEmpty
        && bypassKeywords.any (fun kw => strHasSub (strLower state.query) kw) then
      .safety_critical
    else if evidence.passages.length + evidence.graph_facts.length < 2 then
      .insufficient
    else if evidence.citations.isEmpty then
      .insufficient
    else
      .sufficient

/-- `guardrail_check` from `archive/langgraph_implementation/graph.py`. -/
def guardrail_check (state : RetrievalState) : GuardRoute :=
  if state.safety_escalation.isSome then .escalate
  else if state.confidence < 0.3 then .retry
  else if state.citations.isEmpty then .retry
  else .pass

/-- The per-document authority lookup of `reranker_node`:
`authority_map.get(doc_type, 0.7)`. -/
def authorityScore (doc_type : String) : ℚ :=
  if doc_type = "OEM_MANUAL" then 1.0
  else if doc_type = "STANDARD" then 0.95
  else if doc_type = "SOP" then 0.9
  else if doc_type = "BULLETIN" then 0.85
  else if doc_type = "RCA" then 0.8
  else 0.7

/-- The number of (fact, source-node) pairs whose node id occurs,
case-insensitively, as a substring of the candidate content; each such pair
contributes 0.1 to graph relevance in `compute_hybrid_score`. -/
def graphMatchCount (result : VectorSearchResult) (graph_facts : List GraphFact) : ℕ :=
  (graph_facts.map (fun fact =>
    (fact.source_nodes.filter
      (fun node_id => strHasSub (strLower result.content) (strLower node_id))).length)).sum

/-- `compute_hybrid_score` from `reranker_node` in
`archive/langgraph_implementation/nodes.py`. -/
def compute_hybrid_score (result : VectorSearchResult) (graph_facts : List GraphFact) : ℚ :=
  let vector_score := result.score
  let graph_relevance := min ((graphMatchCount result graph_facts : ℚ) * 0.1) 1.0
  let recency_score : ℚ := 0.5
  let authority_score := authorityScore (metaGetD result.metadata "doc_type" "")
  0.35 * vector_score + 0.30 * graph_relevance
    + 0.15 * recency_score + 0.20 * authority_score

/-- The re-scored copy of a candidate built by `reranker_node`
("Create new result with updated score"). -/
def rescoreResult (result : VectorSearchResult) (graph_facts : List GraphFact) :
    VectorSearchResult :=
  { chunk_id := result.chunk_id
    doc_id := result.doc_id
    content := result.content
    score := compute_hybrid_score result graph_facts
    metadata := result.metadata }

/-- The list computation of `reranker_node`: score every candidate, stable
sort descending by hybrid score, truncate to the top 10. -/
def rerankList (candidates : List VectorSearchResult) (graph_facts : List GraphFact) :
    List VectorSearchResult :=
  let scored_results := candidates.map (fun r => rescoreResult r graph_facts)
  let sorted := sortDescBy (fun r => r.score) scored_results
  sorted.take 10

/-- `reranker_node` from `archive/langgraph_implementation/nodes.py`. -/
def reranker_node (state : RetrievalState) : RetrievalState :=
  let reranked := rerankList state.vector_candidates state.graph_facts
  { state with reranked_evidence := reranked, skip_rerank := reranked.take 5 }

/-- The excerpt of a citation: content truncated to 200 characters with an
ellipsis marker appended exactly when longer than 200. -/
def citationExcerpt (content : String) : String :=
  if content.length > 200 then strTake content 200 ++ "..." else content

/-- The citation built from one passage in `evidence_assembler_node`. -/
def mkCitation (passage : VectorSearchResult) : Citation :=
  { doc_id := passage.doc_id
    doc_title := metaGet passage.metadata "title"
    sectionName := metaGet passage.metadata "section"
    page := metaGet passage.metadata "page"
    excerpt := citationExcerpt passage.content
    relevance_score := passage.score }

/-- The first-seen-per-document citation loop of `evidence_assembler_node`,
with `seen` the set of document ids already cited. -/
def buildCitations : List VectorSearchResult → List String → List Citation
  | [], _ => []
  | passage :: rest, seen =>
    if passage.doc_id ∈ seen then buildCitations rest seen
    else mkCitation passage :: buildCitations rest (passage.doc_id :: seen)

/-- The safety keyword list of `evidence_assembler_node`. -/
def safetyKeywords : List String :=
  ["warning", "caution", "danger", "ppe", "lockout", "hazard"]

/-- `evidence_assembler_node` from `archive/langgraph_implementation/nodes.py`. -/
def evidence_assembler_node (state : RetrievalState) : RetrievalState :=
  let passages := state.reranked_evidence
  let citations := buildCitations passages []
  let safety_rules :=
    (passages.filter (fun p =>
      safetyKeywords.any (fun kw => strHasSub (strLower p.content) kw))).map
      (fun p => ({ content := p.content, source := p.doc_id } : SafetyRule))
  let evidence_pack : EvidencePack :=
    { passages := passages
      graph_facts := state.graph_facts
      safety_rules := safety_rules
      citations := citations
      conflicts := [] }
  { state with evidence_pack := some evidence_pack }

/-- One buffer pass of `skip_fusion_node`: walk the items in order, append
a fused entry unless the content hash was already seen, record the hash. -/
def fusePhase (hash : String → String) (content : α → String) (mk : α → FusedItem) :
    List α → List FusedItem → List String → List FusedItem × List String
  | [], fused, seen => (fused, seen)
  | item :: rest, fused, seen =>
    if hash (content item) ∈ seen then
      fusePhase hash content mk rest fused seen
    else
      fusePhase hash content mk rest
        (fused ++ [mk item]) (hash (content item) :: seen)

/-- The fused entry built from a `skip_vector` item (weight 0.3). -/
def mkVectorFused (item : VectorSearchResult) : FusedItem :=
  { content := item.content, score := item.score * 0.3
    source := "vector", doc_id := some item.doc_id }

/-- The fused entry built from a `skip_graph` fact (weight 0.4). -/
def mkGraphFused (fact : GraphFact) : FusedItem :=
  { content := fact.fact, score := fact.confidence * 0.4
    source := "graph", nodes := some fact.source_nodes }

/-- The fused entry built from a `skip_rerank` item (weight 0.3). -/
def mkRerankFused (item : VectorSearchResult) : FusedItem :=
  { content := item.content, score := item.score * 0.3
    source := "rerank", doc_id := some item.doc_id }

/-- The deduplicated merge of the three skip buffers, in the fixed
processing order vector, then graph, then rerank (before sorting). -/
def fuseAll (hash : String → String) (skip_vector : List VectorSearchResult)
    (skip_graph : List GraphFact) (skip_rerank : List VectorSearchResult) :
    List FusedItem :=
  let st1 := fusePhase hash VectorSearchResult.content mkVectorFused skip_vector [] []
  let st2 := fusePhase hash GraphFact.fact mkGraphFused skip_graph st1.1 st1.2
  let st3 := fusePhase hash VectorSearchResult.content mkRerankFused skip_rerank st2.1 st2.2
  st3.1

/-- The list computation of `skip_fusion_node`: merge the buffers with
hash deduplication, sort descending by weighted score, truncate to 20. -/
def skipFusionList (hash : String → String) (skip_vector : List VectorSearchResult)
    (skip_graph : List GraphFact) (skip_rerank : List VectorSearchResult) :
    List FusedItem :=
  (sortDescBy (fun e => e.score) (fuseAll hash skip_vector skip_graph skip_rerank)).take 20

/-- `skip_fusion_node` from `archive/langgraph_implementation/nodes.py`;
`hash` stands for the external `hashlib.md5(...).hexdigest()[:16]`. -/
def skip_fusion_node (hash : String → String) (state : RetrievalState) : RetrievalState :=
  { state with fused_evidence :=
      skipFusionList hash state.skip_vector state.skip_graph state.skip_rerank }

/-- `answer_synthesizer_node` from `archive/langgraph_implementation/nodes.py`;
`response` stands for the text returned by the language-model gateway, and
the confidence estimate is `min(0.95, len(state.fused_evidence) * 0.1)`. -/
def answer_synthesizer_node (response : String) (state : RetrievalState) : RetrievalState :=
  { state with
      answer := response
      confidence := min 0.95 ((state.fused_evidence.length : ℚ) * 0.1) }

/-- `citation_generator_node` from `archive/langgraph_implementation/nodes.py`. -/
def citation_generator_node (state : RetrievalState) : RetrievalState :=
  { state with citations :=
      match state.evidence_pack with
      | some pack => pack.citations
      | none => [] }

/-- The hedging phrases checked by `guardrails_node`. -/
def hallucinationPhrases : List String :=
  ["i think", "probably", "might be", "i assume", "generally speaking",
   "in my experience"]

/-- `guardrails_node` from `archive/langgraph_implementation/nodes.py`: only
the answer string is modified; both checks read the lowercase of the answer
as it entered the node. -/
def guardrails_node (state : RetrievalState) : RetrievalState :=
  let answer_lower := strLower state.answer
  let answer1 :=
    if hallucinationPhrases.any (fun phrase => strHasSub answer_lower phrase) then
      state.answer ++
        "\n\n*Note: Please verify this information with official documentation.*"
    else state.answer
  let answer2 :=
    match state.evidence_pack with
    | some pack =>
      if !pack.safety_rules.isEmpty
          && !(strHasSub answer_lower "warning" || strHasSub answer_lower "caution"
               || strHasSub answer_lower "safety") then
        answer1 ++
          "\n\n⚠️ **Safety Reminder**: Always follow proper safety procedures and use required PPE when performing maintenance tasks."
      else answer1
    | none => answer1
  { state with answer := answer2 }

/-- The fixed fallback answer of `insufficient_evidence_node`. -/
def fallbackAnswer : String :=
  "I don't have enough information in the available documentation to answer this question accurately. Please try:\n1. Rephrasing your question with more specific terms\n2. Specifying the asset type or equipment name\n3. Asking about a specific procedure or maintenance task\n\nIf this is urgent, please contact your maintenance supervisor or SME."

/-- `insufficient_evidence_node` from
`archive/langgraph_implementation/graph.py`. -/
def insufficient_evidence_node (state : RetrievalState) : RetrievalState :=
  { state with answer := fallbackAnswer, confidence := 0.0, citations := [] }

/-- The fixed safety-notice answer of `safety_escalation_node`. -/
def safetyNoticeAnswer : String :=
  "⚠️ **SAFETY NOTICE**\n\nYour query involves potentially hazardous operations that require human expert review. This system cannot provide guidance for:\n- Bypassing safety interlocks\n- Overriding protective systems\n- Shortcuts to standard procedures\n\nPlease contact your HSE representative or maintenance supervisor for guidance on this matter."

/-- `safety_escalation_node` from
`archive/langgraph_implementation/graph.py`. -/
def safety_escalation_node (state : RetrievalState) : RetrievalState :=
  { state with
      answer := safetyNoticeAnswer
      confidence := 0.0
      safety_escalation := some
        { reason := "Query involves potentially hazardous operations"
          severity := "HIGH"
          recommended_action := "Contact HSE representative"
          contact_roles := ["HSE Representative", "Maintenance Supervisor"] } }

/-- The three terminal outcomes of a pipeline run. -/
inductive RunOutcome where
  | success
  | insufficientEvidence
  | safetyEscalated
deriving Repr, DecidableEq

/-- The guardrail cycle of `create_retrieval_graph`: answer synthesis,
citation generation, guardrails, then the `guardrail_check` routing, where
`retry` re-enters answer synthesis.  `llm` gives the language-model answer
of each synthesis attempt; `fuel` bounds the number of attempts observed,
`none` meaning the cycle was still running after `fuel` attempts. -/
def synthesisLoop (llm : ℕ → String) :
    ℕ → RetrievalState → Option (RunOutcome × RetrievalState)
  | 0, _ => none
  | fuel + 1, state =>
    let after := guardrails_node (citation_generator_node
      (answer_synthesizer_node (llm fuel) state))
    match guardrail_check after with
    | .pass => some (.success, after)
    | .escalate => some (.safetyEscalated, safety_escalation_node after)
    | .retry => synthesisLoop llm fuel after

/-- The run from the evidence-sufficiency routing point of
`create_retrieval_graph` to a terminal: `insufficient` and
`safety_critical` go to their terminal nodes; `sufficient` goes through
skip fusion into the guardrail cycle. -/
def runFromAssembly (hash : String → String) (llm : ℕ → String) (fuel : ℕ)
    (state : RetrievalState) : Option (RunOutcome × RetrievalState) :=
  match evidence_sufficiency_check state with
  | .insufficient => some (.insufficientEvidence, insufficient_evidence_node state)
  | .safety_critical => some (.safetyEscalated, safety_escalation_node state)
  | .sufficient => synthesisLoop llm fuel (skip_fusion_node hash state)

/-- `EntityType` from `graphrag/core/models.py`. -/
inductive EntityType where
  | ASSET
  | COMPONENT
  | FAILURE_MODE
  | SYMPTOM
  | PROCEDURE
  | TOOL
  | MATERIAL
  | SAFETY_RULE
  | TERM
  | STANDARD
  | LOCATION
  | MANUFACTURER
deriving Repr, DecidableEq

/-- The `.value` string of each `EntityType` member. -/
def EntityType.value : EntityType → String
  | .ASSET => "ASSET"
  | .COMPONENT => "COMPONENT"
  | .FAILURE_MODE => "FAILURE_MODE"
  | .SYMPTOM => "SYMPTOM"
  | .PROCEDURE => "PROCEDURE"
  | .TOOL => "TOOL"
  | .SAFETY_RULE => "SAFETY_RULE"
  | .MATERIAL => "MATERIAL"
  | .TERM => "TERM"
  | .STANDARD => "STANDARD"
  | .LOCATION => "LOCATION"
  | .MANUFACTURER => "MANUFACTURER"

/-- `ExtractedEntity` from `graphrag/core/models.py` (the fields the
resolver reads). -/
structure ExtractedEntity where
  name : String
  etype : EntityType
  confidence : ℚ := 1
deriving Repr, DecidableEq

/-- `ResolvedEntity` from `graphrag/core/models.py`, over an abstract
embedding-vector type `E`. -/
structure ResolvedEntity (E : Type) where
  id : String
  canonical_name : String
  original_names : List String := []
  etype : EntityType
  embedding : Option E := none
deriving Repr, DecidableEq

/-- A node of the graph store as the resolver's Cypher queries see it:
stable id, `canonical_name` property, first label, stored embedding. -/
structure StoredNode (E : Type) where
  id : String
  canonical_name : String
  label : String
  embedding : Option E := none
deriving Repr, DecidableEq

/-- A candidate row returned by `EntityResolver.find_candidates`. -/
structure Candidate (E : Type) where
  id : String
  name : String
  ctype : String
  embedding : Option E
  match_type : String
  score : ℚ
deriving Repr, DecidableEq

/-- `ResolutionResult` from `graphrag/ingestion/resolver.py` (the
human-readable `reasoning` string is not modelled). -/
structure ResolutionResult (E : Type) where
  action : String
  entity_id : String
  canonical : Option (ResolvedEntity E)
  link_to : Option String := none
  link_type : Option String := none
  confidence : ℚ := 1
deriving Repr, DecidableEq

/-- The thresholds and weights of `EntityResolver.__init__`. -/
structure ResolverConfig where
  merge_threshold : ℚ := 0.85
  link_threshold : ℚ := 0.70
  embedding_weight : ℚ := 0.6
  context_weight : ℚ := 0.4
deriving Repr, DecidableEq

/-- The default resolver configuration. -/
def defaultResolver : ResolverConfig := {}

/-- The oil-and-gas abbreviation table of `EntityResolver.__init__`. -/
def abbreviationMap : List (String × String) :=
  [("pm", "preventive maintenance"), ("cm", "corrective maintenance"),
   ("rca", "root cause analysis"), ("mtbf", "mean time between failures"),
   ("mttr", "mean time to repair"), ("sop", "standard operating procedure"),
   ("ppe", "personal protective equipment"), ("loto", "lockout tagout"),
   ("p&id", "piping and instrumentation diagram"),
   ("api", "american petroleum institute"),
   ("asme", "american society of mechanical engineers")]

/-- Python's `str.split()`: split on whitespace runs, drop empty pieces. -/
def splitWsAux : List Char → List Char → List (List Char)
  | [], acc => if acc.isEmpty then [] else [acc.reverse]
  | c :: t, acc =>
    if c.isWhitespace then
      (if acc.isEmpty then splitWsAux t [] else acc.reverse :: splitWsAux t [])
    else splitWsAux t (c :: acc)

/-- Python's `str.split()`: split on whitespace runs, drop empty pieces. -/
def pySplit (s : String) : List String :=
  (splitWsAux s.data []).map String.mk

/-- Join words with single spaces (the `" ".join(words)` of the source). -/
def joinWords : List String → String
  | [] => ""
  | [w] => w
  | w :: ws => w ++ " " ++ joinWords ws

/-- `c` is an ASCII lowercase letter (the regex class `[a-z]`). -/
def isLowerAZ (c : Char) : Bool := 'a' ≤ c && c ≤ 'z'

/-- The asset-tag coercion of `EntityResolver.normalize`: the anchored
regex match for letter prefix, optional separator, digit run, optional
letter suffix, reformatted as `PREFIX-digitsSUFFIX` uppercased; a name the
pattern does not match is returned unchanged. -/
def assetTagFormat (name : String) : String :=
  let cs := name.toList
  let letters := cs.takeWhile isLowerAZ
  let r1 := cs.dropWhile isLowerAZ
  if letters.isEmpty then name
  else
    let r2 := r1.dropWhile Char.isWhitespace
    let r3 :=
      match r2 with
      | c :: t => if c = '-' || c = '_' then t else r2
      | [] => r2
    let r4 := r3.dropWhile Char.isWhitespace
    let digits := r4.takeWhile Char.isDigit
    let r5 := r4.dropWhile Char.isDigit
    if digits.isEmpty then name
    else
      let r6 := r5.dropWhile Char.isWhitespace
      let suffix :=
        match r6 with
        | c :: _ => if isLowerAZ c then [c] else []
        | [] => []
      String.mk (letters.map Char.toUpper) ++ "-" ++ String.mk digits
        ++ String.mk (suffix.map Char.toUpper)

/-- The canonical-name computation of `EntityResolver.normalize`:
lowercase and strip, expand abbreviations word by word, drop every
character that is not alphanumeric, underscore, whitespace or hyphen,
collapse whitespace, and coerce physical-asset names to tag format. -/
def normalizeName (entity : ExtractedEntity) : String :=
  let name0 := pyStrip (strLower entity.name)
  let name1 := joinWords
    ((pySplit name0).map (fun w => ((abbreviationMap.lookup w).getD w)))
  let name2 := String.mk (name1.data.filter
    (fun c => c.isAlphanum || c = '_' || c.isWhitespace || c = '-'))
  let name3 := joinWords (pySplit name2)
  if entity.etype = EntityType.ASSET then assetTagFormat name3 else name3

/-- The entity-type label allowlist of the resolver's Cypher queries. -/
def entityLabels : List String :=
  ["Asset", "Component", "FailureMode", "Symptom", "Procedure", "Tool",
   "Material", "SafetyRule", "Term", "Standard", "Location", "Manufacturer"]

/-- `EntityResolver.find_candidates`: the exact canonical-name match
(`LIMIT 1`) returns immediately when found; otherwise the fuzzy-match
results stand in as the parameter `fuzzyCands`, since the APOC
Levenshtein matcher runs inside the external graph store (its absence
degrades to zero fuzzy candidates). -/
def find_candidates (graph : List (StoredNode E)) (fuzzyCands : List (Candidate E))
    (canonical_name : String) (limit : ℕ) : List (Candidate E) :=
  let exact := ((graph.filter (fun n =>
      decide (n.label ∈ entityLabels) && n.canonical_name == canonical_name)).take 1).map
    (fun n => ({ id := n.id, name := n.canonical_name, ctype := n.label,
                 embedding := n.embedding, match_type := "exact", score := 1.0 } : Candidate E))
  if !exact.isEmpty then exact.take limit
  else fuzzyCands.take limit

/-- `EntityResolver.compute_embedding_similarity`: zero when either
embedding is absent, otherwise the gateway's cosine similarity `cos`. -/
def compute_embedding_similarity (cos : E → E → ℚ) :
    Option E → Option E → ℚ
  | some a, some b => cos a b
  | _, _ => 0.0

/-- `EntityResolver.compute_context_similarity`: 0.5 when the entity's
`.value` string equals the candidate's type label, else 0; the
co-occurrence branch is a no-op in the source; capped at 1. -/
def compute_context_similarity (normType : EntityType) (candType : String) : ℚ :=
  let score : ℚ := if normType.value = candType then 0.5 else 0.0
  min score 1.0

/-- The score `EntityResolver.resolve` gives a candidate:
`embedding_weight * embedding_similarity + context_weight * context_similarity`. -/
def candidateScore (cfg : ResolverConfig) (cos : E → E → ℚ) (embedding : E)
    (etype : EntityType) (c : Candidate E) : ℚ :=
  cfg.embedding_weight * compute_embedding_similarity cos (some embedding) c.embedding
    + cfg.context_weight * compute_context_similarity etype c.ctype

/-- The CREATE result of `EntityResolver.resolve` (both the no-candidate
branch and the below-link-threshold branch). -/
def createResult (canonical_name : String) (entity : ExtractedEntity)
    (embedding : E) (freshId : String) : ResolutionResult E :=
  { action := "CREATE"
    entity_id := freshId
    canonical := some
      { id := freshId, canonical_name := canonical_name
        original_names := [entity.name], etype := entity.etype
        embedding := some embedding } }

/-- `EntityResolver.resolve`: normalize, find candidates, score, and decide
on the single highest-scoring candidate.  `embed` and `cos` are the
embedding gateway, `graph` the stored nodes, `fuzzyCands` the external
fuzzy matches, `freshId` the uuid drawn for a newly created entity.  The
source sorts the scored tuples stably by descending score and takes
`scored[0]`; here the stable descending sort is applied to the candidates
with the same score key, whose head is the same first maximal candidate,
and the empty case is the `if not candidates` early return. -/
def resolve (cfg : ResolverConfig) (embed : String → E) (cos : E → E → ℚ)
    (graph : List (StoredNode E)) (fuzzyCands : List (Candidate E))
    (entity : ExtractedEntity) (freshId : String) : ResolutionResult E :=
  let canonical_name := normalizeName entity
  let embedding := embed canonical_name
  let candidates := find_candidates graph fuzzyCands canonical_name 5
  match sortDescBy (candidateScore cfg cos embedding entity.etype) candidates with
  | [] => createResult canonical_name entity embedding freshId
  | best :: _ =>
    let score := candidateScore cfg cos embedding entity.etype best
    if cfg.merge_threshold ≤ score then
      { action := "MERGE", entity_id := best.id, canonical := none
        confidence := score }
    else if cfg.link_threshold ≤ score then
      { action := "LINK"
        entity_id := freshId
        canonical := some
          { id := freshId, canonical_name := canonical_name
            original_names := [entity.name], etype := entity.etype
            embedding := some embedding }
        link_to := some best.id
        link_type := some "RELATED_TO"
        confidence := score }
    else createResult canonical_name entity embedding freshId

/-- A fact dict accumulated by `GraphExpander.expand` in
`graphrag/retrieval/graph_expander.py`. -/
structure ExpanderFact where
  fact : String
  source_nodes : List String := []
  confidence : ℚ := 1
  hops : ℕ := 1
deriving Repr, DecidableEq

/-- The final deduplication loop of `GraphExpander.expand`: keep the first
occurrence of each exact fact text, `seen` being the texts already kept. -/
def dedupFacts : List ExpanderFact → List String → List ExpanderFact
  | [], _ => []
  | f :: fs, seen =>
    if f.fact ∈ seen then dedupFacts fs seen
    else f :: dedupFacts fs (f.fact :: seen)

/-- The per-run finalization of `GraphExpander.expand`: deduplicate the
discovered facts by exact text, then truncate (`unique_facts[:30]`). -/
def expanderFinalize (facts : List ExpanderFact) : List ExpanderFact :=
  (dedupFacts facts []).take 30

/-- A conversation exchange stored by
`graphrag/retrieval/pipeline_langgraph.py`. -/
structure Exchange where
  query : String
  answer : String
  intent : String
deriving Repr, DecidableEq

/-- The in-memory `_session_store`, as a total map defaulting to the empty
history of a fresh session. -/
def SessionStore : Type := String → List Exchange

/-- The store before any call. -/
def emptySessionStore : SessionStore := fun _ => []

/-- The pruning step of the session-based `run_full_retrieval`: keep only
the last 10 exchanges (`history[-10:]` when longer than 10). -/
def trimHistory (history : List Exchange) : List Exchange :=
  if history.length > 10 then history.drop (history.length - 10) else history

/-- The session-history update performed by one call of the session-based
`run_full_retrieval`: append the new exchange, then prune. -/
def recordExchange (store : SessionStore) (session_id : String) (e : Exchange) :
    SessionStore :=
  fun s => if s = session_id then trimHistory (store session_id ++ [e]) else store s

/-- `get_session_history` from `graphrag/retrieval/pipeline_langgraph.py`. -/
def get_session_history (store : SessionStore) (session_id : String) : List Exchange :=
  store session_id

/-- The session store after a sequence of calls. -/
def runSession : SessionStore → List (String × Exchange) → SessionStore
  | store, [] => store
  | store, (sid, e) :: rest => runSession (recordExchange store sid e) rest

/-- Inserting is a permutation of consing. -/
theorem insertDescBy_perm (key : α → ℚ) (x : α) (l : List α) :
    List.Perm (insertDescBy key x l) (x :: l) := by
  induction l with
  | nil => simp [insertDescBy]
  | cons y ys ih =>
    simp only [insertDescBy]
    split
    · exact List.Perm.refl _
    · exact (List.Perm.cons y ih).trans (List.Perm.swap x y ys)

/-- Membership in an insertion. -/
theorem mem_insertDescBy {key : α → ℚ} {x a : α} {l : List α} :
    a ∈ insertDescBy key x l ↔ a = x ∨ a ∈ l := by
  rw [(insertDescBy_perm key x l).mem_iff]
  simp

/-- The stable descending sort permutes its input. -/
theorem sortDescBy_perm (key : α → ℚ) (l : List α) :
    List.Perm (sortDescBy key l) l := by
  induction l with
  | nil => exact List.Perm.refl _
  | cons x xs ih =>
    exact (insertDescBy_perm key x (sortDescBy key xs)).trans (List.Perm.cons x ih)

/-- Insertion preserves descending sortedness. -/
theorem pairwise_insertDescBy {key : α → ℚ} {x : α} {l : List α}
    (h : l.Pairwise (fun a b => key b ≤ key a)) :
    (insertDescBy key x l).Pairwise (fun a b => key b ≤ key a) := by
  induction l with
  | nil => simp [insertDescBy]
  | cons y ys ih =>
    rw [List.pairwise_cons] at h
    obtain ⟨hy, hys⟩ := h
    simp only [insertDescBy]
    split
    case isTrue hle =>
      refine List.Pairwise.cons ?_ (List.Pairwise.cons hy hys)
      intro b hb
      rcases List.mem_cons.mp hb with hb | hb
      · exact hb ▸ hle
      · exact le_trans (hy b hb) hle
    case isFalse hgt =>
      refine List.Pairwise.cons ?_ (ih hys)
      intro b hb
      rcases mem_insertDescBy.mp hb with hb | hb
      · exact hb ▸ le_of_lt (lt_of_not_le hgt)
      · exact hy b hb

/-- The stable descending sort is sorted: every element dominates all
later ones in key. -/
theorem sortDescBy_sorted (key : α → ℚ) (l : List α) :
    (sortDescBy key l).Pairwise (fun a b => key b ≤ key a) := by
  induction l with
  | nil => simp [sortDescBy]
  | cons x xs ih => exact pairwise_insertDescBy ih

/-- The head of the stable descending sort has maximal key. -/
theorem sortDescBy_head_max {key : α → ℚ} {l : List α} {x : α} {rest : List α}
    (h : sortDescBy key l = x :: rest) : ∀ a ∈ l, key a ≤ key x := by
  intro a ha
  have hmem : a ∈ sortDescBy key l := ((sortDescBy_perm key l).mem_iff).mpr ha
  rw [h] at hmem
  rcases List.mem_cons.mp hmem with hmem | hmem
  · exact hmem ▸ le_refl _
  · have hs := sortDescBy_sorted key l
    rw [h, List.pairwise_cons] at hs
    exact hs.1 a hmem

/-- Inserting commutes with projecting out of an annotation, since the
comparisons only look at the projected key. -/
theorem map_insertDescBy (f : β → α) (key : α → ℚ) (x : β) (l : List β) :
    (insertDescBy (fun b => key (f b)) x l).map f
      = insertDescBy key (f x) (l.map f) := by
  induction l with
  | nil => simp [insertDescBy]
  | cons y ys ih =>
    by_cases hc : key (f y) ≤ key (f x) <;>
      simp [insertDescBy, hc, ih]

/-- Sorting commutes with projecting out of an annotation. -/
theorem map_sortDescBy (f : β → α) (key : α → ℚ) (l : List β) :
    (sortDescBy (fun b => key (f b)) l).map f = sortDescBy key (l.map f) := by
  induction l with
  | nil => simp [sortDescBy]
  | cons x xs ih => simp [sortDescBy, map_insertDescBy, ih]

/-- The stability order on index-annotated items: strictly greater key, or
equal key and strictly smaller original index. -/
def lexGt (key : α → ℚ) (p q : ℕ × α) : Prop :=
  key q.2 < key p.2 ∨ (key p.2 = key q.2 ∧ p.1 < q.1)

/-- Inserting an item whose original index is below every index present
preserves the stability order. -/
theorem pairwise_lexGt_insert {key : α → ℚ} {x : ℕ × α} {l : List (ℕ × α)}
    (hl : l.Pairwise (lexGt key)) (hidx : ∀ q ∈ l, x.1 < q.1) :
    (insertDescBy (fun p => key p.2) x l).Pairwise (lexGt key) := by
  induction l with
  | nil => simp [insertDescBy, lexGt]
  | cons y ys ih =>
    rw [List.pairwise_cons] at hl
    obtain ⟨hy, hys⟩ := hl
    simp only [insertDescBy]
    split
    case isTrue hle =>
      refine List.Pairwise.cons ?_ (List.Pairwise.cons hy hys)
      intro b hb
      rcases List.mem_cons.mp hb with hb | hb
      · subst hb
        rcases lt_or_eq_of_le hle with hlt | heq
        · exact Or.inl hlt
        · exact Or.inr ⟨heq.symm, hidx b (List.mem_cons_self _ _)⟩
      · rcases hy b hb with hlt | ⟨heq, _⟩
        · exact Or.inl (lt_of_lt_of_le hlt hle)
        · rcases lt_or_eq_of_le (heq ▸ hle) with hlt | heq2
          · exact Or.inl hlt
          · exact Or.inr ⟨heq2.symm, hidx b (List.mem_cons_of_mem y hb)⟩
    case isFalse hgt =>
      refine List.Pairwise.cons ?_
        (ih hys (fun q hq => hidx q (List.mem_cons_of_mem y hq)))
      intro b hb
      rcases mem_insertDescBy.mp hb with hb | hb
      · exact hb ▸ Or.inl (lt_of_not_le hgt)
      · exact hy b hb

/-- Sorting an index-annotated list with strictly increasing indices is a
stable sort: the result is ordered by descending key, ties broken by the
original index. -/
theorem sortDescBy_stable {key : α → ℚ} {l : List (ℕ × α)}
    (h : l.Pairwise (fun p q => p.1 < q.1)) :
    (sortDescBy (fun p => key p.2) l).Pairwise (lexGt key) := by
  induction l with
  | nil => simp [sortDescBy]
  | cons x xs ih =>
    rw [List.pairwise_cons] at h
    refine pairwise_lexGt_insert (ih h.2) ?_
    intro q hq
    exact h.1 q (((sortDescBy_perm _ xs).mem_iff).mp hq)

/-- Every index in `enumFrom n l` is at least `n`. -/
theorem enumFrom_le_idx : ∀ (n : ℕ) (l : List α), ∀ q ∈ List.enumFrom n l, n ≤ q.1 := by
  intro n l
  induction l generalizing n with
  | nil => intro q hq; simp [List.enumFrom] at hq
  | cons x xs ih =>
    intro q hq
    rcases List.mem_cons.mp hq with hq | hq
    · simp [hq]
    · exact le_trans (Nat.le_succ n) (ih (n + 1) q hq)

/-- The indices of `enumFrom` are strictly increasing. -/
theorem enumFrom_idx_sorted : ∀ (n : ℕ) (l : List α),
    (List.enumFrom n l).Pairwise (fun p q => p.1 < q.1) := by
  intro n l
  induction l generalizing n with
  | nil => simp [List.enumFrom]
  | cons x xs ih =>
    refine List.Pairwise.cons ?_ (ih (n + 1))
    intro q hq
    exact lt_of_lt_of_le (Nat.lt_succ_self n) (enumFrom_le_idx (n + 1) xs q hq)

/-- The safety-critical condition of the gate, read back as a proposition. -/
theorem safetyCond_iff (s : RetrievalState) (ev : EvidencePack) :
    (!ev.safety_rules.isEmpty
      && bypassKeywords.any (fun kw => strHasSub (strLower s.query) kw)) = true
    ↔ ev.safety_rules ≠ [] ∧ ∃ kw ∈ bypassKeywords, strHasSub (strLower s.query) kw = true := by
  simp [List.any_eq_true, List.isEmpty_iff]

/-- C3: the sufficiency gate after evidence assembly evaluates its
conditions in the fixed order (1) pack absent, (2) safety rule present and
a bypass keyword in the raw query, (3) fewer than two evidence items or no
citations, (4) sufficient, returning the first that applies. -/
theorem C3_sufficiency_gate_order (s : RetrievalState) :
    (s.evidence_pack = none → evidence_sufficiency_check s = .insufficient) ∧
    (∀ ev, s.evidence_pack = some ev →
      ((ev.safety_rules ≠ [] ∧ ∃ kw ∈ bypassKeywords, strHasSub (strLower s.query) kw = true) →
        evidence_sufficiency_check s = .safety_critical) ∧
      (¬(ev.safety_rules ≠ [] ∧ ∃ kw ∈ bypassKeywords, strHasSub (strLower s.query) kw = true) →
        (ev.passages.length + ev.graph_facts.length < 2 ∨ ev.citations = []) →
        evidence_sufficiency_check s = .insufficient) ∧
      (¬(ev.safety_rules ≠ [] ∧ ∃ kw ∈ bypassKeywords, strHasSub (strLower s.query) kw = true) →
        ¬(ev.passages.length + ev.graph_facts.length < 2 ∨ ev.citations = []) →
        evidence_sufficiency_check s = .sufficient)) := by
  constructor
  · intro h
    simp [evidence_sufficiency_check, h]
  · intro ev hev
    have hunfold : evidence_sufficiency_check s =
        (if (!ev.safety_rules.isEmpty
              && bypassKeywords.any (fun kw => strHasSub (strLower s.query) kw)) = true then
          SufficiencyRoute.safety_critical
        else if ev.passages.length + ev.graph_facts.length < 2 then .insufficient
        else if ev.citations.isEmpty then .insufficient
        else .sufficient) := by
      simp only [evidence_sufficiency_check, hev]
    refine ⟨?_, ?_, ?_⟩
    · intro hsafe
      rw [hunfold, if_pos ((safetyCond_iff s ev).mpr hsafe)]
    · intro hnsafe hlow
      rw [hunfold, if_neg (fun hc => hnsafe ((safetyCond_iff s ev).mp hc))]
      rcases hlow with hlow | hlow
      · rw [if_pos hlow]
      · by_cases hlen : ev.passages.length + ev.graph_facts.length < 2
        · rw [if_pos hlen]
        · rw [if_neg hlen, if_pos (by simp [List.isEmpty_iff, hlow])]
    · intro hnsafe hok
      push_neg at hok
      rw [hunfold, if_neg (fun hc => hnsafe ((safetyCond_iff s ev).mp hc)),
        if_neg (by omega), if_neg (by simp [List.isEmpty_iff, hok.2])]

/-- A passage used by the C3 witness state. -/
def c3Passage : VectorSearchResult :=
  { chunk_id := "c1", doc_id := "d1"
    content := "Warning: lockout required before maintenance", score := 0.9 }

/-- A concrete post-assembly state whose pack holds a safety rule while its
query asks to bypass an interlock. -/
def c3State : RetrievalState :=
  { query := "how to bypass the interlock"
    evidence_pack := some
      { passages := [c3Passage]
        graph_facts := [{ fact := "V-201 has safety rule LOTO" }]
        safety_rules := [{ content := c3Passage.content, source := "d1" }]
        citations := [{ doc_id := "d1", excerpt := c3Passage.content }] } }

/-- C3 witness: the gate routes the concrete bypass query with a safety
rule to `safety_critical`. -/
theorem C3_sufficiency_gate_order_witness :
    evidence_sufficiency_check c3State = .safety_critical :=
  (((C3_sufficiency_gate_order c3State).2 _ rfl).1)
    ⟨by decide, "bypass", by decide, by decide⟩

/-- Pruning keeps at most ten exchanges. -/
theorem trimHistory_length_le (h : List Exchange) : (trimHistory h).length ≤ 10 := by
  unfold trimHistory
  split
  · simp only [List.length_drop]
    omega
  · omega

/-- A store whose histories are all bounded stays bounded under a call. -/
theorem recordExchange_bound {store : SessionStore}
    (h : ∀ s, (store s).length ≤ 10) (sid : String) (e : Exchange) :
    ∀ s, ((recordExchange store sid e) s).length ≤ 10 := by
  intro s
  unfold recordExchange
  split
  · exact trimHistory_length_le _
  · exact h s

/-- Bounded histories are preserved by any sequence of calls. -/
theorem runSession_bound : ∀ (calls : List (String × Exchange)) (store : SessionStore),
    (∀ s, (store s).length ≤ 10) → ∀ s, ((runSession store calls) s).length ≤ 10 := by
  intro calls
  induction calls with
  | nil => intro store h s; exact h s
  | cons c rest ih =>
    intro store h s
    exact ih (recordExchange store c.1 c.2) (recordExchange_bound h c.1 c.2) s

/-- C10: after any sequence of session-based retrieval calls the stored
history of every session id holds at most 10 exchanges, and appending an
11th exchange to a full history evicts the oldest one. -/
theorem C10_session_history_bounded (calls : List (String × Exchange)) (sid : String) :
    (get_session_history (runSession emptySessionStore calls) sid).length ≤ 10 ∧
    (∀ (store : SessionStore) (e : Exchange), (store sid).length = 10 →
      get_session_history (recordExchange store sid e) sid = (store sid).drop 1 ++ [e]) := by
  constructor
  · exact runSession_bound calls emptySessionStore (fun s => by simp [emptySessionStore]) sid
  · intro store e hlen
    unfold get_session_history recordExchange trimHistory
    rw [if_pos rfl]
    have hlen2 : (store sid ++ [e]).length = 11 := by
      simp [hlen]
    rw [if_pos (by omega)]
    rw [hlen2]
    have : (11 : ℕ) - 10 = 1 := by norm_num
    rw [this, List.drop_append_of_le_length (by omega)]

/-- A fixed exchange for the C10 witness. -/
def c10Exchange : Exchange :=
  { query := "who maintains P-101", answer := "the rotating team", intent := "people" }

/-- Twelve successive calls on one session for the C10 witness. -/
def c10Calls : List (String × Exchange) := List.replicate 12 ("s1", c10Exchange)

/-- A store holding a full ten-exchange history for every session. -/
def c10FullStore : SessionStore := fun _ => List.replicate 10 c10Exchange

/-- C10 witness: after twelve calls the history length is at most 10, and
the eleventh append onto a full history drops the oldest exchange. -/
theorem C10_session_history_bounded_witness :
    (get_session_history (runSession emptySessionStore c10Calls) "s1").length ≤ 10 ∧
    get_session_history (recordExchange c10FullStore "s1" c10Exchange) "s1"
      = (c10FullStore "s1").drop 1 ++ [c10Exchange] :=
  ⟨(C10_session_history_bounded c10Calls "s1").1,
    (C10_session_history_bounded c10Calls "s1").2 c10FullStore c10Exchange (by rfl)⟩

/-- Deduplication keeps a sublist of the discovered facts. -/
theorem dedupFacts_sublist : ∀ (l : List ExpanderFact) (seen : List String),
    (dedupFacts l seen).Sublist l := by
  intro l
  induction l with
  | nil => intro seen; simp [dedupFacts]
  | cons g gs ih =>
    intro seen
    simp only [dedupFacts]
    split
    · exact (ih seen).cons g
    · exact (ih (g.fact :: seen)).cons₂ g

/-- Every fact kept by deduplication is the first discovered fact with its
text, and its text was not previously seen. -/
theorem dedupFacts_first : ∀ (l : List ExpanderFact) (seen : List String),
    ∀ f ∈ dedupFacts l seen,
      f.fact ∉ seen ∧ l.find? (fun g => g.fact == f.fact) = some f := by
  intro l
  induction l with
  | nil => intro seen f hf; simp [dedupFacts] at hf
  | cons g gs ih =>
    intro seen f hf
    simp only [dedupFacts] at hf
    by_cases hg : g.fact ∈ seen
    · rw [if_pos hg] at hf
      obtain ⟨hnot, hfind⟩ := ih seen f hf
      have hne : (g.fact == f.fact) = false := by
        simp only [beq_eq_false_iff_ne, ne_eq]
        intro heq
        exact hnot (heq ▸ hg)
      refine ⟨hnot, ?_⟩
      rw [List.find?_cons, hne]
      exact hfind
    · rw [if_neg hg] at hf
      rcases List.mem_cons.mp hf with hf | hf
      · subst hf
        refine ⟨hg, ?_⟩
        rw [List.find?_cons]
        simp
      · obtain ⟨hnot, hfind⟩ := ih (g.fact :: seen) f hf
        have hne : f.fact ≠ g.fact := fun h => hnot (by simp [h])
        refine ⟨fun h => hnot (List.mem_cons_of_mem _ h), ?_⟩
        rw [List.find?_cons]
        have : (g.fact == f.fact) = false := by
          simp only [beq_eq_false_iff_ne, ne_eq]
          exact fun h => hne h.symm
        rw [this]
        exact hfind

/-- The kept fact texts are pairwise distinct. -/
theorem dedupFacts_nodup : ∀ (l : List ExpanderFact) (seen : List String),
    ((dedupFacts l seen).map (fun f => f.fact)).Nodup := by
  intro l
  induction l with
  | nil => intro seen; simp [dedupFacts]
  | cons g gs ih =>
    intro seen
    simp only [dedupFacts]
    split
    · exact ih seen
    · simp only [List.map_cons, List.nodup_cons]
      refine ⟨?_, ih (g.fact :: seen)⟩
      intro hmem
      obtain ⟨f, hf, hfact⟩ := List.mem_map.mp hmem
      exact (dedupFacts_first gs (g.fact :: seen) f hf).1 (by simp [hfact])

/-- No fact text is lost by deduplication. -/
theorem dedupFacts_covers : ∀ (l : List ExpanderFact) (seen : List String),
    ∀ f ∈ l, f.fact ∉ seen →
      f.fact ∈ (dedupFacts l seen).map (fun g => g.fact) := by
  intro l
  induction l with
  | nil => intro seen f hf; simp at hf
  | cons g gs ih =>
    intro seen f hf hnot
    simp only [dedupFacts]
    rcases List.mem_cons.mp hf with hf | hf
    · subst hf
      rw [if_neg hnot]
      simp
    · by_cases hg : g.fact ∈ seen
      · rw [if_pos hg]
        exact ih seen f hf hnot
      · rw [if_neg hg]
        by_cases heq : f.fact = g.fact
        · simp [heq]
        · simp only [List.map_cons, List.mem_cons]
          exact Or.inr (ih (g.fact :: seen) f hf (by simp [hnot, heq]))

/-- C9 (amended): after traversal, graph expansion deduplicates the
discovered facts by exact fact-text equality keeping the first occurrence,
preserves discovery order, loses no fact text to deduplication, and caps
the result at 30 facts per run (not 20 as claimed). -/
theorem C9_graph_expansion_dedup_cap (facts : List ExpanderFact) :
    (expanderFinalize facts).length ≤ 30 ∧
    ((expanderFinalize facts).map (fun f => f.fact)).Nodup ∧
    (expanderFinalize facts).Sublist facts ∧
    (∀ f ∈ expanderFinalize facts, facts.find? (fun g => g.fact == f.fact) = some f) ∧
    (∀ f ∈ facts, f.fact ∈ (dedupFacts facts []).map (fun g => g.fact)) := by
  refine ⟨?_, ?_, ?_, ?_, ?_⟩
  · simp only [expanderFinalize, List.length_take]
    omega
  · exact List.Nodup.sublist
      ((List.take_sublist 30 (dedupFacts facts [])).map (fun f => f.fact))
      (dedupFacts_nodup facts [])
  · exact (List.take_sublist 30 (dedupFacts facts [])).trans (dedupFacts_sublist facts [])
  · intro f hf
    exact (dedupFacts_first facts [] f
      ((List.take_sublist 30 (dedupFacts facts [])).subset hf)).2
  · intro f hf
    exact dedupFacts_covers facts [] f hf (by simp)

/-- Twenty-one facts with pairwise distinct texts. -/
def c9Facts : List ExpanderFact :=
  ["f01", "f02", "f03", "f04", "f05", "f06", "f07", "f08", "f09", "f10",
   "f11", "f12", "f13", "f14", "f15", "f16", "f17", "f18", "f19", "f20",
   "f21"].map (fun t => { fact := t })

/-- C9 counterexample: a run discovering 21 distinct facts returns all 21
of them, so graph expansion does not cap facts at 20 per run. -/
theorem C9_graph_expansion_dedup_cap_counterexample :
    (expanderFinalize c9Facts).length = 21 ∧ ¬((expanderFinalize c9Facts).length ≤ 20) := by
  constructor
  · decide
  · decide

/-- C9 witness: the amended theorem evaluated on the 21-fact run; the
first-occurrence clause is checked on the head fact. -/
theorem C9_graph_expansion_dedup_cap_witness :
    (expanderFinalize c9Facts).length ≤ 30 ∧
    c9Facts.find? (fun g => g.fact == "f01") = some { fact := "f01" } := by
  refine ⟨(C9_graph_expansion_dedup_cap c9Facts).1, ?_⟩
  have h := (C9_graph_expansion_dedup_cap c9Facts).2.2.2.1
    { fact := "f01" } (by decide)
  exact h

/-- First-occurrence deduplication of a string list (the order in which a
seen-set loop emits its first encounters). -/
def dedupStr : List String → List String → List String
  | [], _ => []
  | t :: ts, seen =>
    if t ∈ seen then dedupStr ts seen else t :: dedupStr ts (t :: seen)

/-- Every emitted citation cites a document not in `seen` and is built from
the first passage carrying its document id. -/
theorem buildCitations_first : ∀ (passages : List VectorSearchResult) (seen : List String),
    ∀ c ∈ buildCitations passages seen,
      c.doc_id ∉ seen ∧ ∃ p, passages.find? (fun q => q.doc_id == c.doc_id) = some p
        ∧ c = mkCitation p := by
  intro passages
  induction passages with
  | nil => intro seen c hc; simp [buildCitations] at hc
  | cons p ps ih =>
    intro seen c hc
    simp only [buildCitations] at hc
    by_cases hp : p.doc_id ∈ seen
    · rw [if_pos hp] at hc
      obtain ⟨hnot, q, hfind, hq⟩ := ih seen c hc
      have hne : (p.doc_id == c.doc_id) = false := by
        simp only [beq_eq_false_iff_ne, ne_eq]
        intro heq
        exact hnot (heq ▸ hp)
      exact ⟨hnot, q, by rw [List.find?_cons, hne]; exact hfind, hq⟩
    · rw [if_neg hp] at hc
      rcases List.mem_cons.mp hc with hc | hc
      · subst hc
        refine ⟨hp, p, ?_, rfl⟩
        rw [List.find?_cons]
        simp [mkCitation]
      · obtain ⟨hnot, q, hfind, hq⟩ := ih (p.doc_id :: seen) c hc
        have hne : (p.doc_id == c.doc_id) = false := by
          simp only [beq_eq_false_iff_ne, ne_eq]
          intro heq
          exact hnot (by simp [heq])
        refine ⟨fun h => hnot (List.mem_cons_of_mem _ h), q, ?_, hq⟩
        rw [List.find?_cons, hne]
        exact hfind

/-- The emitted document ids are the first-occurrence deduplication of the
passages' document ids, in order. -/
theorem buildCitations_docids : ∀ (passages : List VectorSearchResult) (seen : List String),
    (buildCitations passages seen).map (fun c => c.doc_id)
      = dedupStr (passages.map (fun p => p.doc_id)) seen := by
  intro passages
  induction passages with
  | nil => intro seen; simp [buildCitations, dedupStr]
  | cons p ps ih =>
    intro seen
    simp only [buildCitations, List.map_cons, dedupStr]
    by_cases hp : p.doc_id ∈ seen
    · rw [if_pos hp, if_pos hp, ih seen]
    · rw [if_neg hp, if_neg hp, List.map_cons, ih (p.doc_id :: seen)]
      rfl

/-- The emitted document ids are pairwise distinct. -/
theorem buildCitations_nodup : ∀ (passages : List VectorSearchResult) (seen : List String),
    ((buildCitations passages seen).map (fun c => c.doc_id)).Nodup := by
  intro passages
  induction passages with
  | nil => intro seen; simp [buildCitations]
  | cons p ps ih =>
    intro seen
    simp only [buildCitations]
    split
    · exact ih seen
    · simp only [List.map_cons, List.nodup_cons]
      refine ⟨?_, ih (p.doc_id :: seen)⟩
      intro hmem
      obtain ⟨c, hc, hdoc⟩ := List.mem_map.mp hmem
      exact (buildCitations_first ps (p.doc_id :: seen) c hc).1 (by simp [hdoc, mkCitation])

/-- C7: every evidence pack built by evidence assembly cites each distinct
document at most once, in first-seen order over the reranked passages, and
each citation is built from the first passage with its document id, its
excerpt being the content truncated to 200 characters with an ellipsis
marker exactly when the content is longer than 200 characters. -/
theorem C7_citations_unique_first_seen (s : RetrievalState) :
    ∀ ev, (evidence_assembler_node s).evidence_pack = some ev →
      ev.passages = s.reranked_evidence ∧
      (ev.citations.map (fun c => c.doc_id)).Nodup ∧
      ev.citations.map (fun c => c.doc_id)
        = dedupStr (ev.passages.map (fun p => p.doc_id)) [] ∧
      (∀ c ∈ ev.citations,
        ∃ p, ev.passages.find? (fun q => q.doc_id == c.doc_id) = some p ∧
          c.doc_id = p.doc_id ∧ c.relevance_score = p.score ∧
          (p.content.length > 200 → c.excerpt = strTake p.content 200 ++ "...") ∧
          (p.content.length ≤ 200 → c.excerpt = p.content)) := by
  intro ev hev
  simp only [evidence_assembler_node, Option.some.injEq] at hev
  subst hev
  refine ⟨rfl, buildCitations_nodup _ _, buildCitations_docids _ _, ?_⟩
  intro c hc
  obtain ⟨_, p, hfind, hcp⟩ := buildCitations_first s.reranked_evidence [] c hc
  refine ⟨p, hfind, ?_, ?_, ?_, ?_⟩
  · rw [hcp]
    rfl
  · rw [hcp]
    rfl
  · intro hlong
    rw [hcp]
    simp only [mkCitation, citationExcerpt, if_pos hlong]
  · intro hshort
    rw [hcp]
    simp only [mkCitation, citationExcerpt]
    rw [if_neg (by omega)]

/-- Passages for the C7 witness: two documents, one duplicated, one with
content longer than 200 characters. -/
def c7Long : VectorSearchResult :=
  { chunk_id := "c1", doc_id := "d1"
    content := String.mk (List.replicate 205 'a'), score := 0.9 }

/-- A second passage of the same document. -/
def c7Dup : VectorSearchResult :=
  { chunk_id := "c2", doc_id := "d1", content := "short text", score := 0.8 }

/-- A passage of a second document. -/
def c7Other : VectorSearchResult :=
  { chunk_id := "c3", doc_id := "d2", content := "other doc", score := 0.7 }

/-- The C7 witness state after reranking. -/
def c7State : RetrievalState :=
  { query := "q", reranked_evidence := [c7Long, c7Dup, c7Other] }

/-- The evidence pack the assembler builds from the witness state. -/
def c7Ev : EvidencePack :=
  { passages := c7State.reranked_evidence
    graph_facts := c7State.graph_facts
    safety_rules := (c7State.reranked_evidence.filter (fun p =>
      safetyKeywords.any (fun kw => strHasSub (strLower p.content) kw))).map
      (fun p => ({ content := p.content, source := p.doc_id } : SafetyRule))
    citations := buildCitations c7State.reranked_evidence []
    conflicts := [] }

set_option maxRecDepth 4000 in
/-- C7 witness: on three concrete passages (a duplicate document and a
201+-character content) the pack cites each document once, in first-seen
order. -/
theorem C7_citations_unique_first_seen_witness :
    (c7Ev.citations.map (fun c => c.doc_id)).Nodup ∧
    c7Ev.citations.map (fun c => c.doc_id) = ["d1", "d2"] ∧
    (c7Ev.citations.map (fun c => c.excerpt))
      = [String.mk (List.replicate 200 'a') ++ "...", "other doc"] := by
  refine ⟨(C7_citations_unique_first_seen c7State c7Ev rfl).2.1, ?_, ?_⟩
  · decide
  · decide

/-- C8: the resolver's decision step uses only the single highest-scoring
candidate: score at least the merge threshold (default 0.85) yields MERGE
into that candidate with no new id; otherwise at least the link threshold
(default 0.70) yields LINK with a fresh entity id and a RELATED_TO link to
that candidate; otherwise CREATE with a fresh id; no candidates at all
also yields CREATE. -/
theorem C8_resolver_decision {E : Type} (embed : String → E) (cos : E → E → ℚ)
    (graph : List (StoredNode E)) (fuzzyCands : List (Candidate E))
    (entity : ExtractedEntity) (freshId : String) :
    (find_candidates graph fuzzyCands (normalizeName entity) 5 = [] →
      (resolve defaultResolver embed cos graph fuzzyCands entity freshId).action = "CREATE" ∧
      (resolve defaultResolver embed cos graph fuzzyCands entity freshId).entity_id = freshId ∧
      (resolve defaultResolver embed cos graph fuzzyCands entity freshId).link_to = none) ∧
    (find_candidates graph fuzzyCands (normalizeName entity) 5 ≠ [] →
      ∃ b ∈ find_candidates graph fuzzyCands (normalizeName entity) 5,
        (∀ c ∈ find_candidates graph fuzzyCands (normalizeName entity) 5,
          candidateScore defaultResolver cos (embed (normalizeName entity)) entity.etype c
            ≤ candidateScore defaultResolver cos (embed (normalizeName entity)) entity.etype b) ∧
        ((0.85 ≤ candidateScore defaultResolver cos (embed (normalizeName entity)) entity.etype b →
          (resolve defaultResolver embed cos graph fuzzyCands entity freshId).action = "MERGE" ∧
          (resolve defaultResolver embed cos graph fuzzyCands entity freshId).entity_id = b.id ∧
          (resolve defaultResolver embed cos graph fuzzyCands entity freshId).canonical = none ∧
          (resolve defaultResolver embed cos graph fuzzyCands entity freshId).link_to = none) ∧
        (candidateScore defaultResolver cos (embed (normalizeName entity)) entity.etype b < 0.85 →
          0.70 ≤ candidateScore defaultResolver cos (embed (normalizeName entity)) entity.etype b →
          (resolve defaultResolver embed cos graph fuzzyCands entity freshId).action = "LINK" ∧
          (resolve defaultResolver embed cos graph fuzzyCands entity freshId).entity_id = freshId ∧
          (resolve defaultResolver embed cos graph fuzzyCands entity freshId).link_to = some b.id ∧
          (resolve defaultResolver embed cos graph fuzzyCands entity freshId).link_type
            = some "RELATED_TO") ∧
        (candidateScore defaultResolver cos (embed (normalizeName entity)) entity.etype b < 0.70 →
          (resolve defaultResolver embed cos graph fuzzyCands entity freshId).action = "CREATE" ∧
          (resolve defaultResolver embed cos graph fuzzyCands entity freshId).entity_id = freshId ∧
          (resolve defaultResolver embed cos graph fuzzyCands entity freshId).link_to = none))) := by
  have hmerge : defaultResolver.merge_threshold = 0.85 := rfl
  have hlink : defaultResolver.link_threshold = 0.70 := rfl
  cases hsort : sortDescBy
      (candidateScore defaultResolver cos (embed (normalizeName entity)) entity.etype)
      (find_candidates graph fuzzyCands (normalizeName entity) 5) with
  | nil =>
    have hempty : find_candidates graph fuzzyCands (normalizeName entity) 5 = [] := by
      have := sortDescBy_perm
        (candidateScore defaultResolver cos (embed (normalizeName entity)) entity.etype)
        (find_candidates graph fuzzyCands (normalizeName entity) 5)
      rw [hsort] at this
      exact this.symm.eq_nil
    constructor
    · intro _
      simp [resolve, hsort, createResult]
    · intro hne
      exact absurd hempty hne
  | cons b rest =>
    have hbmem : b ∈ find_candidates graph fuzzyCands (normalizeName entity) 5 := by
      have := sortDescBy_perm
        (candidateScore defaultResolver cos (embed (normalizeName entity)) entity.etype)
        (find_candidates graph fuzzyCands (normalizeName entity) 5)
      rw [hsort] at this
      exact this.mem_iff.mp (List.mem_cons_self _ _)
    constructor
    · intro hempty
      rw [hempty] at hsort
      simp [sortDescBy] at hsort
    · intro _
      refine ⟨b, hbmem, sortDescBy_head_max hsort, ?_, ?_, ?_⟩
      · intro hge
        simp only [resolve, hsort]
        rw [if_pos (hmerge ▸ hge)]
        simp
      · intro hlt hge
        simp only [resolve, hsort]
        rw [if_neg (by rw [hmerge]; exact not_le_of_lt hlt),
          if_pos (hlink ▸ hge)]
        simp
      · intro hlt
        simp only [resolve, hsort]
        rw [if_neg (by rw [hmerge]; exact not_le_of_lt (lt_trans hlt (by norm_num))),
          if_neg (by rw [hlink]; exact not_le_of_lt hlt)]
        simp [createResult]

/-- The entity resolved in the C8 witness. -/
def c8Entity : ExtractedEntity := { name := "pump", etype := .COMPONENT }

/-- A populated graph store already holding the canonical name. -/
def c8Graph : List (StoredNode ℚ) :=
  [{ id := "e1", canonical_name := "pump", label := "Component", embedding := some 1 }]

/-- A stub cosine returning 1.2, putting the candidate in the LINK band. -/
def c8Cos : ℚ → ℚ → ℚ := fun _ _ => 1.2

/-- A stub embedding gateway. -/
def c8Embed : String → ℚ := fun _ => 1

/-- The exact-match candidate the resolver finds in the C8 witness. -/
def c8Cand : Candidate ℚ :=
  { id := "e1", name := "pump", ctype := "Component", embedding := some 1,
    match_type := "exact", score := 1.0 }

/-- C8 witness: with the stored exact match scoring 0.72 (in the LINK
band), resolution links the fresh entity to the stored one. -/
theorem C8_resolver_decision_witness :
    (resolve defaultResolver c8Embed c8Cos c8Graph [] c8Entity "new-1").action = "LINK" ∧
    (resolve defaultResolver c8Embed c8Cos c8Graph [] c8Entity "new-1").entity_id = "new-1" ∧
    (resolve defaultResolver c8Embed c8Cos c8Graph [] c8Entity "new-1").link_to = some "e1" ∧
    (resolve defaultResolver c8Embed c8Cos c8Graph [] c8Entity "new-1").link_type
      = some "RELATED_TO" := by
  have hcands : find_candidates c8Graph [] (normalizeName c8Entity) 5 = [c8Cand] := rfl
  obtain ⟨b, hb, _, hdec⟩ :=
    (C8_resolver_decision c8Embed c8Cos c8Graph [] c8Entity "new-1").2 (by rw [hcands]; simp)
  rw [hcands] at hb
  have hbeq : b = c8Cand := by simpa using hb
  subst hbeq
  have hctx0 : compute_context_similarity EntityType.COMPONENT "Component" = 0.0 := by
    simp only [compute_context_similarity]
    rw [if_neg (by decide)]
    norm_num [min_def]
  have hscore : candidateScore defaultResolver c8Cos (c8Embed (normalizeName c8Entity))
      c8Entity.etype c8Cand = 0.72 := by
    norm_num [candidateScore, compute_embedding_similarity, c8Cos, c8Cand, c8Entity,
      defaultResolver, hctx0]
  obtain ⟨h1, h2, h3, h4⟩ := hdec.2.1 (by rw [hscore]; norm_num) (by rw [hscore]; norm_num)
  exact ⟨h1, h2, h3, h4⟩

/-- C2 (the code falsifies it): under the default configuration the merge
branch is unreachable for any real cosine (bounded by 1): the candidate
score is at most 0.6·1 + 0.4·0.5 = 0.8 < 0.85, so resolving an entity
whose canonical name is already stored never returns MERGE. -/
theorem C2_merge_never_fires {E : Type} (embed : String → E) (cos : E → E → ℚ)
    (hcos : ∀ a b, cos a b ≤ 1)
    (graph : List (StoredNode E)) (fuzzyCands : List (Candidate E))
    (entity : ExtractedEntity) (freshId : String) :
    (resolve defaultResolver embed cos graph fuzzyCands entity freshId).action ≠ "MERGE" := by
  cases hsort : sortDescBy
      (candidateScore defaultResolver cos (embed (normalizeName entity)) entity.etype)
      (find_candidates graph fuzzyCands (normalizeName entity) 5) with
  | nil =>
    simp only [resolve, hsort, createResult]
    decide
  | cons b rest =>
    have hemb : compute_embedding_similarity cos (some (embed (normalizeName entity)))
        b.embedding ≤ 1 := by
      cases b.embedding with
      | none => norm_num [compute_embedding_similarity]
      | some e => exact hcos _ e
    have hctx : compute_context_similarity entity.etype b.ctype ≤ 0.5 := by
      unfold compute_context_similarity
      split
      · norm_num [min_def]
      · norm_num [min_def]
    have hscore : candidateScore defaultResolver cos (embed (normalizeName entity))
        entity.etype b ≤ 0.8 := by
      unfold candidateScore
      have h1 : defaultResolver.embedding_weight = 0.6 := rfl
      have h2 : defaultResolver.context_weight = 0.4 := rfl
      rw [h1, h2]
      nlinarith [hemb, hctx]
    simp only [resolve, hsort]
    rw [if_neg (by
      have : defaultResolver.merge_threshold = 0.85 := rfl
      rw [this]
      intro hge
      nlinarith [hscore, hge])]
    split
    · simp
    · simp [createResult]

/-- One guardrail-cycle iteration only rewrites the answer, citations and
confidence: the fused evidence, the evidence pack and the safety
escalation pass through unchanged, and the confidence it writes is
`min(0.95, len(fused_evidence) * 0.1)`. -/
theorem synthCycle_fields (response : String) (s : RetrievalState) :
    (guardrails_node (citation_generator_node
        (answer_synthesizer_node response s))).fused_evidence = s.fused_evidence ∧
    (guardrails_node (citation_generator_node
        (answer_synthesizer_node response s))).safety_escalation = s.safety_escalation ∧
    (guardrails_node (citation_generator_node
        (answer_synthesizer_node response s))).confidence
      = min 0.95 ((s.fused_evidence.length : ℚ) * 0.1) ∧
    (guardrails_node (citation_generator_node
        (answer_synthesizer_node response s))).evidence_pack = s.evidence_pack := by
  refine ⟨?_, ?_, ?_, ?_⟩ <;>
    simp [guardrails_node, citation_generator_node, answer_synthesizer_node]

/-- C1 (the code falsifies it): there is no retry counter anywhere in the
graph, so when synthesis keeps producing confidence below 0.30 — which it
does deterministically whenever the fused evidence holds fewer than 3
items, for every language model — the guardrail check routes `retry` on
every iteration and the cycle never reaches a terminal, for any amount of
fuel. -/
theorem C1_guardrail_retry_unbounded (llm : ℕ → String) :
    ∀ (fuel : ℕ) (s : RetrievalState), s.safety_escalation = none →
      ((s.fused_evidence.length : ℚ) * 0.1) < 0.3 →
      synthesisLoop llm fuel s = none := by
  intro fuel
  induction fuel with
  | zero => intro s _ _; rfl
  | succ n ih =>
    intro s hesc hconf
    have hfields := synthCycle_fields (llm n) s
    have h1 : (guardrails_node (citation_generator_node
        (answer_synthesizer_node (llm n) s))).safety_escalation = none := by
      rw [hfields.2.1, hesc]
    have h2 : (guardrails_node (citation_generator_node
        (answer_synthesizer_node (llm n) s))).confidence < 0.3 := by
      rw [hfields.2.2.1]
      exact lt_of_le_of_lt (min_le_right _ _) hconf
    have hroute : guardrail_check (guardrails_node (citation_generator_node
        (answer_synthesizer_node (llm n) s))) = .retry := by
      unfold guardrail_check
      rw [h1]
      simp [h2]
    simp only [synthesisLoop]
    rw [hroute]
    exact ih _ h1 (by rw [hfields.1]; exact hconf)

/-- Two fused evidence items: synthesis then always reports confidence
0.2 < 0.3. -/
def c1State : RetrievalState :=
  { query := "q"
    fused_evidence :=
      [{ content := "a", score := 0.1, source := "vector" },
       { content := "b", score := 0.1, source := "graph" }] }

/-- C1 witness: with two fused items and a stub language model, the
guardrail cycle is still running after 5 iterations (and, by the theorem,
after any number of iterations). -/
theorem C1_guardrail_retry_unbounded_witness :
    synthesisLoop (fun _ => "a low-confidence answer") 5 c1State = none :=
  C1_guardrail_retry_unbounded (fun _ => "a low-confidence answer") 5 c1State rfl
    (by norm_num [c1State])

/-- The guardrail cycle, entered with no safety escalation set, can only
exit through `pass`: the outcome is success and the final state still has
no escalation. -/
theorem synthesisLoop_success (llm : ℕ → String) :
    ∀ (fuel : ℕ) (s : RetrievalState) (o : RunOutcome) (t : RetrievalState),
      s.safety_escalation = none →
      synthesisLoop llm fuel s = some (o, t) →
      o = RunOutcome.success ∧ t.safety_escalation = none := by
  intro fuel
  induction fuel with
  | zero =>
    intro s o t _ h
    exact absurd h (by simp [synthesisLoop])
  | succ n ih =>
    intro s o t hesc h
    have hfields := synthCycle_fields (llm n) s
    have h1 : (guardrails_node (citation_generator_node
        (answer_synthesizer_node (llm n) s))).safety_escalation = none := by
      rw [hfields.2.1, hesc]
    rw [synthesisLoop] at h
    split at h
    · rename_i heq
      simp only [Option.some.injEq, Prod.mk.injEq] at h
      exact ⟨h.1.symm, h.2 ▸ h1⟩
    · rename_i heq
      exfalso
      unfold guardrail_check at heq
      rw [h1] at heq
      simp only [Option.isSome_none, Bool.false_eq_true, if_false] at heq
      split_ifs at heq
    · rename_i heq
      exact ih _ o t h1 h

/-- C4: every terminating run reaches exactly one of the three terminal
outcomes; no final state has both a positive confidence and a non-null
safety escalation; the insufficient-evidence terminal produces the fixed
fallback answer with empty citations and confidence 0.0; the
safety-escalation terminal produces confidence 0.0 with a populated
escalation. -/
theorem C4_exclusive_terminals (hash : String → String) (llm : ℕ → String) (fuel : ℕ)
    (s : RetrievalState) (hesc : s.safety_escalation = none)
    (o : RunOutcome) (t : RetrievalState)
    (hrun : runFromAssembly hash llm fuel s = some (o, t)) :
    (∀ o2 t2, runFromAssembly hash llm fuel s = some (o2, t2) → o2 = o ∧ t2 = t) ∧
    ¬(0 < t.confidence ∧ t.safety_escalation ≠ none) ∧
    (o = .insufficientEvidence →
      t.answer = fallbackAnswer ∧ t.citations = [] ∧ t.confidence = 0) ∧
    (o = .safetyEscalated → t.confidence = 0 ∧ t.safety_escalation ≠ none) := by
  refine ⟨?_, ?_, ?_, ?_⟩
  · intro o2 t2 h2
    rw [hrun] at h2
    simp only [Option.some.injEq, Prod.mk.injEq] at h2
    exact ⟨h2.1.symm, h2.2.symm⟩
  all_goals (
    unfold runFromAssembly at hrun
    split at hrun)
  · simp only [Option.some.injEq, Prod.mk.injEq] at hrun
    rw [← hrun.2]
    intro hcontra
    have : (insufficient_evidence_node s).confidence = 0 := by
      norm_num [insufficient_evidence_node]
    rw [this] at hcontra
    exact absurd hcontra.1 (by norm_num)
  · simp only [Option.some.injEq, Prod.mk.injEq] at hrun
    rw [← hrun.2]
    intro hcontra
    have : (safety_escalation_node s).confidence = 0 := by
      norm_num [safety_escalation_node]
    rw [this] at hcontra
    exact absurd hcontra.1 (by norm_num)
  · have hsk : (skip_fusion_node hash s).safety_escalation = none := by
      simp [skip_fusion_node, hesc]
    obtain ⟨-, ht⟩ := synthesisLoop_success llm fuel _ o t hsk hrun
    intro hcontra
    exact hcontra.2 ht
  · simp only [Option.some.injEq, Prod.mk.injEq] at hrun
    intro _
    rw [← hrun.2]
    refine ⟨rfl, rfl, ?_⟩
    norm_num [insufficient_evidence_node]
  · simp only [Option.some.injEq, Prod.mk.injEq] at hrun
    intro ho
    rw [← hrun.1] at ho
    exact absurd ho (by decide)
  · have hsk : (skip_fusion_node hash s).safety_escalation = none := by
      simp [skip_fusion_node, hesc]
    obtain ⟨ho, -⟩ := synthesisLoop_success llm fuel _ o t hsk hrun
    intro ho2
    rw [ho] at ho2
    exact absurd ho2 (by decide)
  · simp only [Option.some.injEq, Prod.mk.injEq] at hrun
    intro ho
    rw [← hrun.1] at ho
    exact absurd ho (by decide)
  · simp only [Option.some.injEq, Prod.mk.injEq] at hrun
    intro _
    rw [← hrun.2]
    constructor
    · norm_num [safety_escalation_node]
    · simp [safety_escalation_node]
  · have hsk : (skip_fusion_node hash s).safety_escalation = none := by
      simp [skip_fusion_node, hesc]
    obtain ⟨ho, -⟩ := synthesisLoop_success llm fuel _ o t hsk hrun
    intro ho2
    rw [ho] at ho2
    exact absurd ho2 (by decide)

/-- A state whose run ends at the insufficient-evidence terminal: no
evidence pack was assembled. -/
def c4State : RetrievalState := { query := "maintenance query" }

/-- C4 witness: the run on the empty-evidence state reaches the
insufficient-evidence terminal, whose final state carries the fixed
fallback answer, no citations and confidence 0. -/
theorem C4_exclusive_terminals_witness :
    (insufficient_evidence_node c4State).answer = fallbackAnswer ∧
    (insufficient_evidence_node c4State).citations = [] ∧
    (insufficient_evidence_node c4State).confidence = 0 :=
  (C4_exclusive_terminals (fun x => x) (fun _ => "ans") 0 c4State rfl
      RunOutcome.insufficientEvidence (insufficient_evidence_node c4State) rfl).2.2.1 rfl

/-- C5: hybrid reranking scores every candidate as
0.35·vector + 0.30·graph_relevance + 0.15·recency(0.5) + 0.20·authority,
keeps the identity fields of each candidate in its re-scored copy, returns
the top 10 sorted descending by score, and the sort is stable: annotating
the re-scored candidates with their original vector-recall positions, the
sorted list is ordered by descending score with ties in ascending original
position. -/
theorem C5_hybrid_rerank (candidates : List VectorSearchResult)
    (graph_facts : List GraphFact) :
    (rerankList candidates graph_facts).length ≤ 10 ∧
    (rerankList candidates graph_facts).Pairwise (fun a b => b.score ≤ a.score) ∧
    (∀ r ∈ rerankList candidates graph_facts, ∃ c ∈ candidates,
      r.chunk_id = c.chunk_id ∧ r.doc_id = c.doc_id ∧ r.content = c.content ∧
      r.metadata = c.metadata ∧
      r.score = 0.35 * c.score
        + 0.30 * min ((graphMatchCount c graph_facts : ℚ) * 0.1) 1.0
        + 0.15 * 0.5
        + 0.20 * authorityScore (metaGetD c.metadata "doc_type" "")) ∧
    rerankList candidates graph_facts
      = ((sortDescBy (fun p => p.2.score)
          ((candidates.map (fun c => rescoreResult c graph_facts)).enum)).map
            Prod.snd).take 10 ∧
    (sortDescBy (fun p : ℕ × VectorSearchResult => p.2.score)
        ((candidates.map (fun c => rescoreResult c graph_facts)).enum)).Pairwise
      (lexGt (fun r => r.score)) := by
  refine ⟨?_, ?_, ?_, ?_, ?_⟩
  · simp only [rerankList, List.length_take]
    omega
  · exact List.Pairwise.sublist (List.take_sublist 10 _) (sortDescBy_sorted _ _)
  · intro r hr
    have hr2 : r ∈ sortDescBy (fun x => x.score)
        (candidates.map (fun c => rescoreResult c graph_facts)) :=
      List.mem_of_mem_take hr
    have hr3 := (sortDescBy_perm (fun x => x.score)
      (candidates.map (fun c => rescoreResult c graph_facts))).mem_iff.mp hr2
    obtain ⟨c, hc, hrc⟩ := List.mem_map.mp hr3
    refine ⟨c, hc, ?_, ?_, ?_, ?_, ?_⟩ <;> rw [← hrc] <;> rfl
  · rw [map_sortDescBy Prod.snd (fun r : VectorSearchResult => r.score),
      List.enum_map_snd]
    rfl
  · exact sortDescBy_stable (enumFrom_idx_sorted 0 _)

/-- The graph fact of the C5 witness, sourced at node V-201. -/
def c5Fact : GraphFact :=
  { fact := "V-201 has safety rule LOTO", source_nodes := ["V-201"] }

/-- The candidate of the C5 witness: an OEM-manual passage mentioning the
fact's source node. -/
def c5Cand : VectorSearchResult :=
  { chunk_id := "c1", doc_id := "d1", content := "Check valve v-201 for leaks"
    score := 0.5, metadata := [("doc_type", "OEM_MANUAL")] }

/-- C5 witness: on the one-candidate input the reranker keeps at most 10
results, the re-scored copy matches the weighted-sum formula through the
theorem, and the concrete score evaluates to
0.35·0.5 + 0.30·0.1 + 0.15·0.5 + 0.20·1.0 = 0.48. -/
theorem C5_hybrid_rerank_witness :
    (rerankList [c5Cand] [c5Fact]).length ≤ 10 ∧
    (∃ c ∈ [c5Cand],
      (rescoreResult c5Cand [c5Fact]).score = 0.35 * c.score
        + 0.30 * min ((graphMatchCount c [c5Fact] : ℚ) * 0.1) 1.0
        + 0.15 * 0.5
        + 0.20 * authorityScore (metaGetD c.metadata "doc_type" "")) ∧
    (rescoreResult c5Cand [c5Fact]).score = 0.48 := by
  have hmem : rescoreResult c5Cand [c5Fact] ∈ rerankList [c5Cand] [c5Fact] := by
    rw [show rerankList [c5Cand] [c5Fact] = [rescoreResult c5Cand [c5Fact]] from rfl]
    exact List.mem_singleton.mpr rfl
  refine ⟨(C5_hybrid_rerank [c5Cand] [c5Fact]).1, ?_, ?_⟩
  · obtain ⟨c, hc, hx⟩ :=
      (C5_hybrid_rerank [c5Cand] [c5Fact]).2.2.1 (rescoreResult c5Cand [c5Fact]) hmem
    exact ⟨c, hc, hx.2.2.2.2⟩
  · have hcount : graphMatchCount c5Cand [c5Fact] = 1 := by decide
    have hauth : metaGetD c5Cand.metadata "doc_type" "" = "OEM_MANUAL" := by decide
    have hauth2 : authorityScore "OEM_MANUAL" = 1.0 := by
      norm_num [authorityScore]
    have hsc : c5Cand.score = 0.5 := rfl
    norm_num [rescoreResult, compute_hybrid_score, hcount, hauth, hauth2, hsc, min_def]

/-- One buffer pass of skip fusion: the seen set stays exactly the set of
hashes present in the fused list, the fused hashes stay pairwise distinct,
every emitted entry is an old one or was built from a buffer item, old
entries survive, and every processed item's content hash is represented. -/
theorem fusePhase_spec {α : Type} (hash : String → String) (content : α → String)
    (mk : α → FusedItem) (hmk : ∀ a, (mk a).content = content a) :
    ∀ (items : List α) (fused : List FusedItem) (seen : List String),
      (∀ h, h ∈ seen ↔ ∃ e ∈ fused, hash e.content = h) →
      (fused.map (fun e => hash e.content)).Nodup →
      (∀ h, h ∈ (fusePhase hash content mk items fused seen).2 ↔
        ∃ e ∈ (fusePhase hash content mk items fused seen).1, hash e.content = h) ∧
      ((fusePhase hash content mk items fused seen).1.map
        (fun e => hash e.content)).Nodup ∧
      (∀ e ∈ (fusePhase hash content mk items fused seen).1,
        e ∈ fused ∨ ∃ a ∈ items, e = mk a) ∧
      (∀ e ∈ fused, e ∈ (fusePhase hash content mk items fused seen).1) ∧
      (∀ a ∈ items, ∃ e ∈ (fusePhase hash content mk items fused seen).1,
        hash e.content = hash (content a)) := by
  intro items
  induction items with
  | nil =>
    intro fused seen hinv hnodup
    refine ⟨hinv, hnodup, ?_, ?_, ?_⟩
    · intro e he
      exact Or.inl he
    · intro e he
      exact he
    · intro a ha
      simp at ha
  | cons a as ih =>
    intro fused seen hinv hnodup
    by_cases hmem : hash (content a) ∈ seen
    · have hstep : fusePhase hash content mk (a :: as) fused seen
          = fusePhase hash content mk as fused seen := by
        simp [fusePhase, hmem]
      rw [hstep]
      obtain ⟨i1, i2, i3, i4, i5⟩ := ih fused seen hinv hnodup
      refine ⟨i1, i2, ?_, i4, ?_⟩
      · intro e he
        rcases i3 e he with h | ⟨b, hb, hb2⟩
        · exact Or.inl h
        · exact Or.inr ⟨b, List.mem_cons_of_mem a hb, hb2⟩
      · intro b hb
        rcases List.mem_cons.mp hb with hb | hb
        · rw [hb]
          obtain ⟨e, he, hh⟩ := (hinv (hash (content a))).mp hmem
          exact ⟨e, i4 e he, hh⟩
        · exact i5 b hb
    · have hstep : fusePhase hash content mk (a :: as) fused seen
          = fusePhase hash content mk as (fused ++ [mk a])
              (hash (content a) :: seen) := by
        simp [fusePhase, hmem]
      have hinv2 : ∀ h, h ∈ hash (content a) :: seen ↔
          ∃ e ∈ fused ++ [mk a], hash e.content = h := by
        intro h
        constructor
        · intro hh
          rcases List.mem_cons.mp hh with hh | hh
          · exact ⟨mk a, List.mem_append_right _ (List.mem_singleton.mpr rfl),
              by rw [hmk a, hh]⟩
          · obtain ⟨e, he, hhe⟩ := (hinv h).mp hh
            exact ⟨e, List.mem_append_left _ he, hhe⟩
        · rintro ⟨e, he, hhe⟩
          rcases List.mem_append.mp he with he | he
          · exact List.mem_cons_of_mem _ ((hinv h).mpr ⟨e, he, hhe⟩)
          · have heq : e = mk a := List.mem_singleton.mp he
            rw [heq, hmk a] at hhe
            exact hhe ▸ List.mem_cons_self _ _
      have hnodup2 : ((fused ++ [mk a]).map (fun e => hash e.content)).Nodup := by
        rw [List.map_append]
        refine List.Nodup.append hnodup (by simp) ?_
        intro x hx hy
        simp only [List.map_cons, List.map_nil, List.mem_singleton] at hy
        rw [hmk a] at hy
        obtain ⟨e, he, hhe⟩ := List.mem_map.mp hx
        exact hmem (hy ▸ (hinv x).mpr ⟨e, he, hhe⟩)
      rw [hstep]
      obtain ⟨i1, i2, i3, i4, i5⟩ :=
        ih (fused ++ [mk a]) (hash (content a) :: seen) hinv2 hnodup2
      refine ⟨i1, i2, ?_, ?_, ?_⟩
      · intro e he
        rcases i3 e he with h | ⟨b, hb, hb2⟩
        · rcases List.mem_append.mp h with h | h
          · exact Or.inl h
          · exact Or.inr ⟨a, List.mem_cons_self _ _, List.mem_singleton.mp h⟩
        · exact Or.inr ⟨b, List.mem_cons_of_mem a hb, hb2⟩
      · intro e he
        exact i4 e (List.mem_append_left _ he)
      · intro b hb
        rcases List.mem_cons.mp hb with hb | hb
        · rw [hb]
          exact ⟨mk a,
            i4 (mk a) (List.mem_append_right _ (List.mem_singleton.mpr rfl)),
            by rw [hmk a]⟩
        · exact i5 b hb

/-- Distinct hashes make entries with equal hash identical. -/
theorem nodup_map_eq_of_eq {f : α → β} :
    ∀ {l : List α}, (l.map f).Nodup → ∀ a ∈ l, ∀ b ∈ l, f a = f b → a = b := by
  intro l
  induction l with
  | nil =>
    intro _ a ha
    simp at ha
  | cons x xs ih =>
    intro hnd a ha b hb hfab
    simp only [List.map_cons, List.nodup_cons] at hnd
    rcases List.mem_cons.mp ha with ha | ha <;> rcases List.mem_cons.mp hb with hb | hb
    · rw [ha, hb]
    · exfalso
      have hmem : f b ∈ List.map f xs := List.mem_map.mpr ⟨b, hb, rfl⟩
      rw [← hfab, ha] at hmem
      exact hnd.1 hmem
    · exfalso
      have hmem : f a ∈ List.map f xs := List.mem_map.mpr ⟨a, ha, rfl⟩
      rw [hfab, hb] at hmem
      exact hnd.1 hmem
    · exact ih hnd.2 a ha b hb hfab

/-- C6: skip fusion deduplicates across the three buffers by content hash
in the fixed processing order (vector, then graph, then rerank): the
merged list has pairwise-distinct hashes (so identical content in two
buffers yields exactly one entry), every entry carries its buffer's
rescaled score (vector 0.3, graph 0.4, rerank 0.3), a hash present in the
vector buffer is attributed to "vector", one present in the graph buffer
but not in the vector buffer to "graph", every buffer content is
represented, and the output is the merged list sorted descending by
rescaled score and truncated to 20 entries. -/
theorem C6_skip_fusion_dedup (hash : String → String)
    (sv : List VectorSearchResult) (sg : List GraphFact)
    (sr : List VectorSearchResult) :
    (skipFusionList hash sv sg sr).length ≤ 20 ∧
    (skipFusionList hash sv sg sr).Pairwise (fun a b => b.score ≤ a.score) ∧
    (∀ e ∈ skipFusionList hash sv sg sr, e ∈ fuseAll hash sv sg sr) ∧
    ((fuseAll hash sv sg sr).map (fun e => hash e.content)).Nodup ∧
    (∀ e1 ∈ fuseAll hash sv sg sr, ∀ e2 ∈ fuseAll hash sv sg sr,
      hash e1.content = hash e2.content → e1 = e2) ∧
    (∀ e ∈ fuseAll hash sv sg sr,
      (e.source = "vector" ∧ ∃ it ∈ sv, e.content = it.content ∧ e.score = it.score * 0.3) ∨
      (e.source = "graph" ∧ ∃ f ∈ sg, e.content = f.fact ∧ e.score = f.confidence * 0.4) ∨
      (e.source = "rerank" ∧ ∃ it ∈ sr, e.content = it.content ∧ e.score = it.score * 0.3)) ∧
    (∀ it ∈ sv, ∃ e ∈ fuseAll hash sv sg sr,
      hash e.content = hash it.content ∧ e.source = "vector") ∧
    (∀ f ∈ sg, (∀ it ∈ sv, hash it.content ≠ hash f.fact) →
      ∃ e ∈ fuseAll hash sv sg sr,
        hash e.content = hash f.fact ∧ e.source = "graph") ∧
    (∀ it ∈ sr, ∃ e ∈ fuseAll hash sv sg sr, hash e.content = hash it.content) := by
  obtain ⟨v1, v2, v3, v4, v5⟩ :=
    fusePhase_spec hash VectorSearchResult.content mkVectorFused (fun a => rfl)
      sv [] [] (by simp) (by simp)
  obtain ⟨g1, g2, g3, g4, g5⟩ :=
    fusePhase_spec hash GraphFact.fact mkGraphFused (fun a => rfl) sg
      (fusePhase hash VectorSearchResult.content mkVectorFused sv [] []).1
      (fusePhase hash VectorSearchResult.content mkVectorFused sv [] []).2 v1 v2
  obtain ⟨r1, r2, r3, r4, r5⟩ :=
    fusePhase_spec hash VectorSearchResult.content mkRerankFused (fun a => rfl) sr
      (fusePhase hash GraphFact.fact mkGraphFused sg
        (fusePhase hash VectorSearchResult.content mkVectorFused sv [] []).1
        (fusePhase hash VectorSearchResult.content mkVectorFused sv [] []).2).1
      (fusePhase hash GraphFact.fact mkGraphFused sg
        (fusePhase hash VectorSearchResult.content mkVectorFused sv [] []).1
        (fusePhase hash VectorSearchResult.content mkVectorFused sv [] []).2).2 g1 g2
  have hall : fuseAll hash sv sg sr
      = (fusePhase hash VectorSearchResult.content mkRerankFused sr
          (fusePhase hash GraphFact.fact mkGraphFused sg
            (fusePhase hash VectorSearchResult.content mkVectorFused sv [] []).1
            (fusePhase hash VectorSearchResult.content mkVectorFused sv [] []).2).1
          (fusePhase hash GraphFact.fact mkGraphFused sg
            (fusePhase hash VectorSearchResult.content mkVectorFused sv [] []).1
            (fusePhase hash VectorSearchResult.content mkVectorFused sv [] []).2).2).1 :=
    rfl
  have hvsrc : ∀ e ∈ (fusePhase hash VectorSearchResult.content mkVectorFused
      sv [] []).1, e.source = "vector" ∧ ∃ it ∈ sv, e = mkVectorFused it := by
    intro e he
    rcases v3 e he with h | ⟨it, hit, hmkit⟩
    · simp at h
    · exact ⟨by rw [hmkit]; rfl, it, hit, hmkit⟩
  refine ⟨?_, ?_, ?_, ?_, ?_, ?_, ?_, ?_, ?_⟩
  · simp only [skipFusionList, List.length_take]
    omega
  · exact List.Pairwise.sublist (List.take_sublist 20 _) (sortDescBy_sorted _ _)
  · intro e he
    have he2 : e ∈ sortDescBy (fun x => x.score) (fuseAll hash sv sg sr) :=
      List.mem_of_mem_take he
    exact ((sortDescBy_perm _ _).mem_iff).mp he2
  · rw [hall]
    exact r2
  · intro e1 h1 e2 h2 hh
    rw [hall] at h1 h2
    exact nodup_map_eq_of_eq r2 e1 h1 e2 h2 hh
  · intro e he
    rw [hall] at he
    rcases r3 e he with h | ⟨it, hit, hmkit⟩
    · rcases g3 e h with h2 | ⟨f, hf, hmkf⟩
      · rcases v3 e h2 with h3 | ⟨it, hit, hmkit⟩
        · simp at h3
        · exact Or.inl ⟨by rw [hmkit]; rfl, it, hit, by rw [hmkit]; rfl,
            by rw [hmkit]; rfl⟩
      · exact Or.inr (Or.inl ⟨by rw [hmkf]; rfl, f, hf, by rw [hmkf]; rfl,
          by rw [hmkf]; rfl⟩)
    · exact Or.inr (Or.inr ⟨by rw [hmkit]; rfl, it, hit, by rw [hmkit]; rfl,
        by rw [hmkit]; rfl⟩)
  · intro it hit
    obtain ⟨e, he, hhe⟩ := v5 it hit
    obtain ⟨hsrc, -⟩ := hvsrc e he
    refine ⟨e, ?_, hhe, hsrc⟩
    rw [hall]
    exact r4 e (g4 e he)
  · intro f hf hnov
    obtain ⟨e, he, hhe⟩ := g5 f hf
    rcases g3 e he with h2 | ⟨f2, hf2, hmkf2⟩
    · exfalso
      obtain ⟨-, it, hit, hmkit⟩ := hvsrc e h2
      refine hnov it hit ?_
      rw [← hhe, hmkit]
      rfl
    · refine ⟨e, ?_, hhe, by rw [hmkf2]; rfl⟩
      rw [hall]
      exact r4 e he
  · intro it hit
    obtain ⟨e, he, hhe⟩ := r5 it hit
    refine ⟨e, ?_, hhe⟩
    rw [hall]
    exact he

/-- The vector-buffer item of the C6 witness. -/
def c6Item : VectorSearchResult :=
  { chunk_id := "c1", doc_id := "d1", content := "shared evidence", score := 0.5 }

/-- The vector skip buffer of the C6 witness. -/
def c6V : List VectorSearchResult := [c6Item]

/-- The graph skip buffer of the C6 witness: a fact with the identical
content. -/
def c6G : List GraphFact := [{ fact := "shared evidence", confidence := 0.9 }]

/-- C6 witness: feeding the vector and graph buffers the same content
yields exactly one fused entry, attributed to the vector buffer (the
earlier-processed one); the identity function stands in for the content
hash. -/
theorem C6_skip_fusion_dedup_witness :
    ((fuseAll (fun s => s) c6V c6G []).map (fun e => e.content)).Nodup ∧
    (∃ e ∈ fuseAll (fun s => s) c6V c6G [],
      e.content = c6Item.content ∧ e.source = "vector") ∧
    (fuseAll (fun s => s) c6V c6G []).length = 1 := by
  refine ⟨?_, ?_, ?_⟩
  · exact (C6_skip_fusion_dedup (fun s => s) c6V c6G []).2.2.2.1
  · obtain ⟨e, he, hh, hs⟩ :=
      (C6_skip_fusion_dedup (fun s => s) c6V c6G []).2.2.2.2.2.2.1 c6Item
        (by simp [c6V])
    exact ⟨e, he, hh, hs⟩
  · rfl

/-- The entity of the C2 failing input: an asset named "pump". -/
def c2Entity : ExtractedEntity := { name := "pump", etype := .ASSET }

/-- The populated graph of the C2 failing input: it already stores the
canonical name "pump" under the Asset label with its own embedding. -/
def c2Graph : List (StoredNode ℚ) :=
  [{ id := "e1", canonical_name := "pump", label := "Asset", embedding := some 1 }]

/-- A stub embedding gateway agreeing with the stored embedding. -/
def c2Embed : String → ℚ := fun _ => 1

/-- A perfect stub cosine: identical embeddings score 1. -/
def c2Cos : ℚ → ℚ → ℚ := fun _ _ => 1

/-- The exact-match candidate the resolver finds on the C2 failing input. -/
def c2Cand : Candidate ℚ :=
  { id := "e1", name := "pump", ctype := "Asset", embedding := some 1,
    match_type := "exact", score := 1.0 }

/-- C2 witness: on the populated graph the two successive resolutions both
return CREATE (not MERGE) with distinct fresh ids — the exact-match
candidate scores 0.6·1 + 0.4·0 = 0.6 because the type check compares the
enum value "ASSET" against the stored label "Asset" — and the general
theorem confirms MERGE cannot fire. -/
theorem C2_merge_never_fires_witness :
    ((resolve defaultResolver c2Embed c2Cos c2Graph [] c2Entity "id-1").action = "CREATE" ∧
     (resolve defaultResolver c2Embed c2Cos c2Graph [] c2Entity "id-2").action = "CREATE" ∧
     (resolve defaultResolver c2Embed c2Cos c2Graph [] c2Entity "id-1").entity_id
       ≠ (resolve defaultResolver c2Embed c2Cos c2Graph [] c2Entity "id-2").entity_id) ∧
    (resolve defaultResolver c2Embed c2Cos c2Graph [] c2Entity "id-1").action ≠ "MERGE" := by
  have hcands : find_candidates c2Graph [] (normalizeName c2Entity) 5 = [c2Cand] := rfl
  have hsorted : sortDescBy (candidateScore defaultResolver c2Cos
      (c2Embed (normalizeName c2Entity)) c2Entity.etype) [c2Cand] = [c2Cand] := rfl
  have hctx0 : compute_context_similarity EntityType.ASSET "Asset" = 0.0 := by
    simp only [compute_context_similarity]
    rw [if_neg (by decide)]
    norm_num [min_def]
  have hscore : candidateScore defaultResolver c2Cos (c2Embed (normalizeName c2Entity))
      c2Entity.etype c2Cand = 0.6 := by
    norm_num [candidateScore, compute_embedding_similarity, c2Cos, c2Cand, c2Entity,
      defaultResolver, hctx0]
  have hres : ∀ fid : String,
      resolve defaultResolver c2Embed c2Cos c2Graph [] c2Entity fid
        = createResult (normalizeName c2Entity) c2Entity
            (c2Embed (normalizeName c2Entity)) fid := by
    intro fid
    simp only [resolve, hcands, hsorted]
    rw [if_neg (by rw [hscore]; norm_num [defaultResolver]),
      if_neg (by rw [hscore]; norm_num [defaultResolver])]
  refine ⟨⟨?_, ?_, ?_⟩, ?_⟩
  · rw [hres "id-1"]
    rfl
  · rw [hres "id-2"]
    rfl
  · rw [hres "id-1", hres "id-2"]
    simp [createResult]
  · exact C2_merge_never_fires c2Embed c2Cos (fun _ _ => le_refl 1) c2Graph [] c2Entity "id-1"

end GraphRag
